import Mathlib

/-!
Shallow embedding of the validator-set cache of idena-go
(`core/validators/validators.go`): addresses, the per-pool sorted address
container, the identity-state scan (`loadValidNodes`), committee sampling
(`GetOnlineValidators`) and the derived size/membership queries, together
with theorems settling the specification claims about them.
-/

namespace IdenaValidators

/-- A `common.Address` is a 20-byte identifier; we model it as a list of
byte values. `bytes.Compare` on two such lists is lexicographic. -/
abbrev Address := List Nat

/-- Model of Go `bytes.Compare`: lexicographic comparison of byte slices,
shorter slice first on a tie of the common part. -/
def bytesCompare : List Nat → List Nat → Ordering
  | [], [] => .eq
  | [], _ :: _ => .lt
  | _ :: _, [] => .gt
  | a :: as, b :: bs =>
    if a < b then .lt else if b < a then .gt else bytesCompare as bs

/-- Model of `common.Address.SetBytes`: keep the rightmost 20 bytes and
left-pad with zero bytes to the fixed address length. -/
def setBytes (b : List Nat) : Address :=
  let b := if 20 < b.length then b.drop (b.length - 20) else b
  List.replicate (20 - b.length) 0 ++ b

/-- Model of Go `sort.Search`'s binary-search loop on the interval
`[i, j)`, computed exactly as the Go loop does. The loop shrinks `j - i`
by at least one per iteration, so a fuel of the initial interval width
makes the recursion structural without changing the value. -/
def sortSearchAux (f : Nat → Bool) : Nat → Nat → Nat → Nat
  | 0, i, _ => i
  | fuel + 1, i, j =>
    if i < j then
      let m := (i + j) / 2
      if f m then sortSearchAux f fuel i m else sortSearchAux f fuel (m + 1) j
    else i

/-- Model of Go `sort.Search(n, f)`. -/
def sortSearch (n : Nat) (f : Nat → Bool) : Nat :=
  sortSearchAux f n 0 n

/-- Model of `sortedAddresses.add`: find the insertion position by binary
search over byte order and insert there (the Go code shifts the tail right
and writes the element at the found index). -/
def addSorted (l : List Address) (addr : Address) : List Address :=
  let i := sortSearch l.length fun k => bytesCompare (l.getD k []) addr ≠ .lt
  l.take i ++ addr :: l.drop i

/-- Model of `sortedAddresses.index`: binary search for the address; the
found position when the element at it equals the address, `-1` otherwise. -/
def indexOfSorted (l : List Address) (addr : Address) : Int :=
  let i := sortSearch l.length fun k => bytesCompare (l.getD k []) addr ≠ .lt
  if i = l.length then -1
  else if bytesCompare (l.getD i []) addr = .eq then (i : Int) else -1

/-- Association-list lookup, modelling a read of a Go map. -/
def lookupA {β : Type} (m : List (Address × β)) (k : Address) : Option β :=
  match m with
  | [] => none
  | (k2, v) :: rest => if k2 = k then some v else lookupA rest k

/-- Association-list store, modelling a Go map write: replace the value of
an existing key, otherwise append a new entry. -/
def storeA {β : Type} (m : List (Address × β)) (k : Address) (v : β) :
    List (Address × β) :=
  match m with
  | [] => [(k, v)]
  | (k2, v2) :: rest =>
    if k2 = k then (k2, v) :: rest else (k2, v2) :: storeA rest k v

/-- Decoded content of a `state.ApprovedIdentity` record value. -/
structure ApprovedIdentity where
  approved : Bool
  online : Bool
  delegatee : Option Address
deriving DecidableEq, Repr

/-- One raw record supplied by `IdentityStateDB.IterateIdentities`: a key
(`none` models a nil key; otherwise the first byte is a key prefix and the
rest is the address) and a value (`none` models a `FromBytes` decode
failure). -/
structure IdentityRecord where
  key : Option (List Nat)
  value : Option ApprovedIdentity
deriving DecidableEq, Repr

/-- Model of the `IterateIdentities` collaborator contract: visit the
records in order, threading the callback state; the callback's boolean
result means "stop iterating". -/
def iterate {σ : Type} (f : σ → IdentityRecord → σ × Bool) :
    List IdentityRecord → σ → σ
  | [], s => s
  | r :: rs, s =>
    let p := f s r
    if p.2 then p.1 else iterate f rs p.1

/-- The mutable state threaded through the `loadValidNodes` scan callback. -/
structure ScanState where
  onlineNodes : List Address
  nodesSet : Finset Address
  onlineNodesSet : Finset Address
  delegations : List (Address × Address)
  pools : List (Address × List Address)
  delegators : List Address
deriving DecidableEq

/-- The empty scan state, as after the clearing at the top of
`loadValidNodes`. -/
def ScanState.empty : ScanState :=
  ⟨[], ∅, ∅, [], [], []⟩

/-- The body of the `IterateIdentities` callback in `loadValidNodes`: stop
on a nil key; skip (and continue) on a decode failure; otherwise register
the record's online flag, delegation edge and approval. -/
def scanStep (s : ScanState) (r : IdentityRecord) : ScanState × Bool :=
  match r.key with
  | none => (s, true)
  | some key =>
    let addr := setBytes (key.drop 1)
    match r.value with
    | none => (s, false)
    | some data =>
      let s :=
        if data.online then
          { s with onlineNodesSet := insert addr s.onlineNodesSet,
                   onlineNodes := s.onlineNodes ++ [addr] }
        else s
      let s :=
        match data.delegatee with
        | some d =>
          let list := (lookupA s.pools d).getD []
          { s with pools := storeA s.pools d (addSorted list addr),
                   delegators := s.delegators ++ [addr],
                   delegations := storeA s.delegations addr d }
        | none => s
      let s :=
        if data.approved then { s with nodesSet := insert addr s.nodesSet }
        else s
      (s, false)

/-- The order in which `sortValidNodes` may place `a` before `b`: the Go
comparator is `less i j ↔ bytes.Compare(nodes[i], nodes[j]) > 0`, so a
sorted output has `bytesCompare a b ≠ .lt` for every earlier/later pair. -/
def addrGe (a b : Address) : Prop := bytesCompare a b ≠ .lt

instance : DecidableRel addrGe := fun a b =>
  inferInstanceAs (Decidable (bytesCompare a b ≠ .lt))

/-- Model of `sortValidNodes`: a stable sort of the node list descending by
address bytes (`sort.SliceStable` with `bytes.Compare(nodes[i], nodes[j]) > 0`;
equal addresses are identical byte lists, so any stable sort with this
comparator produces this list). -/
def sortValidNodes (nodes : List Address) : List Address :=
  nodes.insertionSort addrGe

/-- Step 4 of the reload: walk the online sequence in scan order, appending
each approved online address and, when it owns a pool, that pool's sorted
delegators. -/
def buildValidators (s : ScanState) : List Address :=
  s.onlineNodes.foldl
    (fun acc n =>
      let acc := if n ∈ s.nodesSet then acc ++ [n] else acc
      match lookupA s.pools n with
      | some ds => acc ++ ds
      | none => acc)
    []

/-- The derived state owned by `ValidatorsCache` (the identity-state
handle, logger and mutex carry no derived data and are omitted; the
snapshot's records and version are instead passed to the reload
operations as inputs). -/
structure ValidatorsCache where
  sortedValidators : List Address
  pools : List (Address × List Address)
  delegations : List (Address × Address)
  nodesSet : Finset Address
  onlineNodesSet : Finset Address
  god : Address
  height : Nat
deriving DecidableEq

/-- Model of `NewValidatorsCache`: empty derived state with the given god
address. -/
def NewValidatorsCache (godAddress : Address) : ValidatorsCache :=
  ⟨[], [], [], ∅, ∅, godAddress, 0⟩

/-- Model of `loadValidNodes`: clear everything, scan the snapshot's
records once through `scanStep`, build the validator sequence from the
online scan order, sort it descending, and record the snapshot version as
the height. -/
def loadValidNodes (v : ValidatorsCache) (records : List IdentityRecord)
    (version : Nat) : ValidatorsCache :=
  let s := iterate scanStep records ScanState.empty
  { v with nodesSet := s.nodesSet
           onlineNodesSet := s.onlineNodesSet
           delegations := s.delegations
           pools := s.pools
           sortedValidators := sortValidNodes (buildValidators s)
           height := version }

/-- Model of `ValidatorsCache.Load`. -/
def Load (v : ValidatorsCache) (records : List IdentityRecord)
    (version : Nat) : ValidatorsCache :=
  loadValidNodes v records version

/-- The part of a `types.Block` the cache reads: its height and whether the
header flags contain `IdentityUpdate`. -/
structure Block where
  height : Nat
  identityUpdate : Bool
deriving DecidableEq

/-- Model of `RefreshIfUpdated`: rebuild only when the block carries the
`IdentityUpdate` flag, then unconditionally overwrite the cached god
address and set the cached height to the block's height. -/
def RefreshIfUpdated (v : ValidatorsCache) (records : List IdentityRecord)
    (version : Nat) (godAddress : Address) (b : Block) : ValidatorsCache :=
  let v := if b.identityUpdate then loadValidNodes v records version else v
  { v with god := godAddress, height := b.height }

/-- Model of `NetworkSize`. -/
def NetworkSize (v : ValidatorsCache) : Nat :=
  v.nodesSet.card

/-- Model of `OnlineSize`. -/
def OnlineSize (v : ValidatorsCache) : Nat :=
  v.onlineNodesSet.card

/-- Model of `ValidatorsSize`. -/
def ValidatorsSize (v : ValidatorsCache) : Nat :=
  v.sortedValidators.length

/-- Model of `Height`. -/
def Height (v : ValidatorsCache) : Nat :=
  v.height

/-- Model of `ForkCommitteeSize`: approved-set cardinality minus the number
of delegation-map entries, incremented once for each pool key that is not
in the approved set. -/
def ForkCommitteeSize (v : ValidatorsCache) : Int :=
  let size : Int := (NetworkSize v : Int) - v.delegations.length
  v.pools.foldl (fun size kv => if kv.1 ∈ v.nodesSet then size else size + 1)
    size

/-- Model of `PoolSize`: the pool's delegator count, plus one when the pool
address is itself approved; `0` when no pool exists for the address. -/
def PoolSize (v : ValidatorsCache) (pool : Address) : Int :=
  match lookupA v.pools pool with
  | some set =>
    let size : Int := set.length
    if pool ∈ v.nodesSet then size + 1 else size
  | none => 0

/-- Model of `PoolSizeExceptNodes`: `PoolSize`'s base count, decremented
once for each excluded entry whose binary-search `index` in the pool's
delegator list is strictly positive; `0` when no pool exists. -/
def PoolSizeExceptNodes (v : ValidatorsCache) (pool : Address)
    (exceptNodes : List Address) : Int :=
  match lookupA v.pools pool with
  | some set =>
    let size : Int := set.length
    let size := if pool ∈ v.nodesSet then size + 1 else size
    exceptNodes.foldl
      (fun size exceptNode =>
        if indexOfSorted set exceptNode > 0 then size - 1 else size)
      size
  | none => 0

/-- Model of `IsPool`. -/
def IsPool (v : ValidatorsCache) (pool : Address) : Prop :=
  (lookupA v.pools pool).isSome = true

instance (v : ValidatorsCache) (pool : Address) : Decidable (IsPool v pool) := by
  unfold IsPool; infer_instance

/-- Model of `FindSubIdentity`. The Go code dereferences `v.pools[pool]`
without checking presence, and indexes `set[nonce]` without checking
non-emptiness; both panics are modelled as `none`. The nonce is a `uint32`,
so its increment is taken modulo `2^32`. -/
def FindSubIdentity (v : ValidatorsCache) (pool : Address) (nonce : Nat) :
    Option (Address × Nat) :=
  match lookupA v.pools pool with
  | none => none
  | some set =>
    let set := if pool ∈ v.nodesSet then pool :: set else set
    let nonce := if nonce ≥ set.length % 2 ^ 32 then 0 else nonce
    match set.get? nonce with
    | none => none
    | some a => some (a, (nonce + 1) % 2 ^ 32)

/-- Model of `Delegator`: the resolved delegatee, or the zero value of
`common.Address` when the address has no delegation entry. -/
def Delegator (v : ValidatorsCache) (addr : Address) : Address :=
  (lookupA v.delegations addr).getD (List.replicate 20 0)

/-- Model of `replaceByDelegatee`: each member with a delegation entry is
mapped to its delegatee, the rest pass through; collecting into a set
merges duplicates. -/
def replaceByDelegatee (v : ValidatorsCache) (s : Finset Address) :
    Finset Address :=
  s.image fun addr => (lookupA v.delegations addr).getD addr

/-- Model of the `StepValidators` committee result. -/
structure StepValidators where
  Original : Finset Address
  Addresses : Finset Address
  Size : Nat
deriving DecidableEq

/-- The external collaborators used by committee sampling: the
cryptographic hash over byte strings and the seeded pseudo-random
permutation generator (`rand.Perm`), both required to be identical on
every node. -/
structure CryptoPrimitives where
  hash : List Nat → List Nat
  perm : Nat → Nat → List Nat

/-- One lowercase hexadecimal digit. -/
def hexDigit (n : Nat) : Char :=
  "0123456789abcdef".toList.getD n "0".toList.headI

/-- Model of `common.Bytes2Hex`: lowercase hex encoding, two digits per
byte. -/
def bytes2Hex (b : List Nat) : String :=
  String.mk
    (b.foldr (fun x acc => hexDigit (x / 16 % 16) :: hexDigit (x % 16) :: acc)
      [])

/-- Byte content of an ASCII string, as fed to the hash. -/
def strBytes (s : String) : List Nat :=
  s.toList.map Char.toNat

/-- The formatted string `fmt.Sprintf("%v-%v-%v", hex(seed), round, step)`
hashed to derive the sampling seed. -/
def seedString (seed : List Nat) (round : Nat) (step : Nat) : String :=
  bytes2Hex seed ++ "-" ++ toString round ++ "-" ++ toString step

/-- Model of `binary.LittleEndian.Uint64`: the first eight bytes combined
little-endian. -/
def littleEndianUint64 (b : List Nat) : Nat :=
  (List.range 8).foldl (fun acc i => acc + b.getD i 0 % 2 ^ 8 * 2 ^ (8 * i)) 0

/-- Model of `GetOnlineValidators(seed, round, step, limit)`: the god
singleton when nobody is online; the full validator set when its length
equals `limit`; `none` ("no committee") when it is shorter than `limit`;
otherwise the first `limit` members of the seeded pseudo-random
permutation of validator indices. The returned `nil` of the Go code is
modelled as `none`. -/
def GetOnlineValidators (ext : CryptoPrimitives) (v : ValidatorsCache)
    (seed : List Nat) (round : Nat) (step : Nat) (limit : Int) :
    Option StepValidators :=
  if OnlineSize v = 0 then
    some ⟨{v.god}, {v.god}, 1⟩
  else if (v.sortedValidators.length : Int) = limit then
    let set := v.sortedValidators.foldl (fun s n => insert n s) ∅
    let newSet := replaceByDelegatee v set
    some ⟨set, newSet, newSet.card⟩
  else if (v.sortedValidators.length : Int) < limit then
    none
  else
    let rndSeed := ext.hash (strBytes (seedString seed round step))
    let randSeed := littleEndianUint64 rndSeed
    let indexes := ext.perm randSeed v.sortedValidators.length
    let set :=
      (List.range limit.toNat).foldl
        (fun s i => insert (v.sortedValidators.getD (indexes.getD i 0) []) s)
        ∅
    let newSet := replaceByDelegatee v set
    some ⟨set, newSet, newSet.card⟩

/-! ### Concrete fixtures

Small identity-state snapshots and collaborator instances used to
evaluate the operations at concrete inputs. -/

/-- A trivial instantiation of the external hash and permutation
collaborators. -/
def trivialCrypto : CryptoPrimitives :=
  ⟨fun b => b, fun _ n => List.range n⟩

/-- A second, different instantiation of the external collaborators. -/
def otherCrypto : CryptoPrimitives :=
  ⟨fun _ => List.replicate 32 1, fun _ n => (List.range n).reverse⟩

/-- Snapshot in which address `…03` is approved, online and delegates to
`…07`, and `…07` is online: `…03` is appended to the validator sequence
both as an approved online node and as a member of `…07`'s pool. -/
def dupRecords : List IdentityRecord :=
  [⟨some [0, 3], some ⟨true, true, some (setBytes [7])⟩⟩,
   ⟨some [0, 7], some ⟨false, true, none⟩⟩]

/-- The cache reloaded from `dupRecords`. -/
def dupCache : ValidatorsCache :=
  loadValidNodes (NewValidatorsCache []) dupRecords 0

/-- Snapshot whose middle record has an undecodable value, followed by a
well-formed online record. -/
def skipRecords : List IdentityRecord :=
  [⟨some [0, 1], some ⟨true, true, none⟩⟩,
   ⟨some [0, 2], none⟩,
   ⟨some [0, 3], some ⟨true, true, none⟩⟩]

/-- The cache reloaded from `skipRecords`. -/
def skipCache : ValidatorsCache :=
  loadValidNodes (NewValidatorsCache []) skipRecords 0

/-- Two approved online identities `…ff` and `…11` with no delegation. -/
def exampleRecords : List IdentityRecord :=
  [⟨some [0, 255], some ⟨true, true, none⟩⟩,
   ⟨some [0, 17], some ⟨true, true, none⟩⟩]

/-- The cache reloaded from `exampleRecords`. -/
def exampleCache : ValidatorsCache :=
  loadValidNodes (NewValidatorsCache []) exampleRecords 0

/-- A freshly constructed cache: god address `…09`, nobody online. -/
def emptyCache : ValidatorsCache :=
  NewValidatorsCache (setBytes [9])

/-- A cache with exactly one online approved identity. -/
def oneCache : ValidatorsCache :=
  loadValidNodes (NewValidatorsCache []) [⟨some [0, 1], some ⟨true, true, none⟩⟩] 0

/-- A second cache built from the same snapshot content as `dupCache` but
at a different snapshot version (its derived state is identical). -/
def dupCacheLater : ValidatorsCache :=
  Load (NewValidatorsCache []) dupRecords 5

/-! ### Properties of the byte comparator -/

theorem bytesCompare_eq_iff (a b : List Nat) :
    bytesCompare a b = .eq ↔ a = b := by
  induction a generalizing b with
  | nil => cases b <;> simp [bytesCompare]
  | cons x as ih =>
    cases b with
    | nil => simp [bytesCompare]
    | cons y bs =>
      simp only [bytesCompare]
      split_ifs with h1 h2
      · simp; omega
      · simp; omega
      · have hxy : x = y := by omega
        simp [hxy, ih]

theorem bytesCompare_swap (a b : List Nat) :
    bytesCompare b a = (bytesCompare a b).swap := by
  induction a generalizing b with
  | nil => cases b <;> simp [bytesCompare, Ordering.swap]
  | cons x as ih =>
    cases b with
    | nil => simp [bytesCompare, Ordering.swap]
    | cons y bs =>
      simp only [bytesCompare]
      split_ifs with h1 h2 <;> simp_all [Ordering.swap] <;> omega

theorem bytesCompare_lt_trans {a b c : List Nat}
    (h1 : bytesCompare a b = .lt) (h2 : bytesCompare b c = .lt) :
    bytesCompare a c = .lt := by
  induction a generalizing b c with
  | nil =>
    cases b with
    | nil => simp [bytesCompare] at h1
    | cons y bs => cases c <;> simp_all [bytesCompare]
  | cons x as ih =>
    cases b with
    | nil => simp [bytesCompare] at h1
    | cons y bs =>
      cases c with
      | nil => simp [bytesCompare] at h2
      | cons z cs =>
        simp only [bytesCompare] at h1 h2 ⊢
        split_ifs at h1 h2 ⊢ with g1 g2 g3 g4 g5 g6
        all_goals first
          | rfl
          | omega
          | (exact ih h1 h2)
          | simp_all

instance : IsTotal Address addrGe := by
  constructor
  intro a b
  unfold addrGe
  rcases h : bytesCompare a b with _ | _ | _
  · right
    rw [bytesCompare_swap, h]
    simp [Ordering.swap]
  · left; simp [h]
  · left; simp [h]

instance : IsTrans Address addrGe := by
  constructor
  intro a b c hab hbc
  unfold addrGe at hab hbc ⊢
  rcases h1 : bytesCompare a b with _ | _ | _
  · exact absurd h1 hab
  · rw [bytesCompare_eq_iff] at h1
    subst h1; exact hbc
  · rcases h2 : bytesCompare b c with _ | _ | _
    · exact absurd h2 hbc
    · rw [bytesCompare_eq_iff] at h2
      subst h2; simp [h1]
    · have hba : bytesCompare b a = .lt := by
        rw [bytesCompare_swap, h1]; rfl
      have hcb : bytesCompare c b = .lt := by
        rw [bytesCompare_swap, h2]; rfl
      have hca : bytesCompare c a = .lt := bytesCompare_lt_trans hcb hba
      rw [bytesCompare_swap, hca]
      simp [Ordering.swap]

/-! ### Fold lemmas -/

theorem foldl_insert_eq (l : List Address) (s : Finset Address) :
    l.foldl (fun s n => insert n s) s = s ∪ l.toFinset := by
  induction l generalizing s with
  | nil => simp
  | cons a l ih =>
    simp only [List.foldl_cons, List.toFinset_cons, ih,
      Finset.insert_union, Finset.union_insert]

theorem foldl_sub_count (P : Address → Prop) [DecidablePred P]
    (l : List Address) (init : Int) :
    l.foldl (fun s e => if P e then s - 1 else s) init
      = init - (l.filter fun e => decide (P e)).length := by
  induction l generalizing init with
  | nil => simp
  | cons a l ih =>
    by_cases h : P a <;> simp [h, ih] <;> omega

theorem foldl_add_count (S : Finset Address)
    (l : List (Address × List Address)) (init : Int) :
    l.foldl (fun s kv => if kv.1 ∈ S then s else s + 1) init
      = init + ((l.map Prod.fst).filter fun p => decide (p ∉ S)).length := by
  induction l generalizing init with
  | nil => simp
  | cons kv l ih =>
    by_cases h : kv.1 ∈ S <;> simp [h, ih] <;> omega

/-! ### Claim theorems -/

/-- C2 counterexample: the claim says a decode failure stops the whole
scan, so the record after the bad one would be unprocessed; in fact, after
`skipRecords` (whose second record has an undecodable value) the third
record's address is in the online set — it was processed. -/
theorem decode_failure_cex :
    (skipRecords.getD 1 ⟨none, none⟩).value = none ∧
    setBytes [3] ∈ skipCache.onlineNodesSet := by
  decide

/-- C2 (amended): a decode failure makes the callback return `false`
("continue"), so the failing record is skipped, leaving the scan state
untouched, and iteration proceeds over the remaining records unchanged;
only a nil key returns `true` and stops the iteration. -/
theorem decode_failure_skips_record (k : List Nat)
    (val : Option ApprovedIdentity) (rest : List IdentityRecord)
    (s : ScanState) :
    scanStep s ⟨some k, none⟩ = (s, false) ∧
    iterate scanStep (⟨some k, none⟩ :: rest) s = iterate scanStep rest s ∧
    iterate scanStep (⟨none, val⟩ :: rest) s = s :=
  ⟨rfl, rfl, rfl⟩

/-- C3: `GetOnlineValidators` is deterministic — two cache instances whose
derived state (validator list, online set, approved set, delegation map,
god address) coincides produce identical committee results, original and
effective sets and sizes included, for the same collaborators and query
arguments. -/
theorem getOnlineValidators_deterministic (ext : CryptoPrimitives)
    (v1 v2 : ValidatorsCache) (seed : List Nat) (round step : Nat)
    (limit : Int)
    (hv : v1.sortedValidators = v2.sortedValidators)
    (ho : v1.onlineNodesSet = v2.onlineNodesSet)
    (hn : v1.nodesSet = v2.nodesSet)
    (hd : v1.delegations = v2.delegations)
    (hg : v1.god = v2.god) :
    GetOnlineValidators ext v1 seed round step limit
      = GetOnlineValidators ext v2 seed round step limit := by
  simp only [GetOnlineValidators, OnlineSize, replaceByDelegatee, hv, ho, hd,
    hg]

/-- C3 witness: two caches built independently from identical
identity-state content (at different snapshot versions) answer a query
identically. -/
theorem getOnlineValidators_deterministic_w :
    GetOnlineValidators trivialCrypto dupCache [] 1 2 3
      = GetOnlineValidators trivialCrypto dupCacheLater [] 1 2 3 :=
  getOnlineValidators_deterministic trivialCrypto dupCache dupCacheLater
    [] 1 2 3 rfl rfl rfl rfl rfl

/-- C5 counterexample: the claim says every cache state with
`ValidatorsSize < limit` yields "no committee"; but a cache with nobody
online has `ValidatorsSize 0 < 1` and still returns the god committee,
because the empty-online branch is checked first. -/
theorem no_committee_cex :
    ((emptyCache.sortedValidators.length : Int) < 1) ∧
    GetOnlineValidators trivialCrypto emptyCache [] 0 0 1 ≠ none := by
  decide

/-- C5 (amended): when at least one identity is online and the Validator
Set is strictly shorter than `limit`, `GetOnlineValidators` returns the
"no committee" sentinel for every seed, round and step. -/
theorem no_committee_when_short (ext : CryptoPrimitives)
    (v : ValidatorsCache) (seed : List Nat) (round step : Nat) (limit : Int)
    (hon : OnlineSize v ≠ 0)
    (hlen : (v.sortedValidators.length : Int) < limit) :
    GetOnlineValidators ext v seed round step limit = none := by
  have hne : (v.sortedValidators.length : Int) ≠ limit := by omega
  simp [GetOnlineValidators, hon, hne, hlen]

/-- C5 witness: one online validator, limit two — no committee. -/
theorem no_committee_when_short_w :
    OnlineSize oneCache ≠ 0 ∧
    ((oneCache.sortedValidators.length : Int) < 2) ∧
    GetOnlineValidators trivialCrypto oneCache [] 0 0 2 = none :=
  ⟨by decide, by decide,
    no_committee_when_short trivialCrypto oneCache [] 0 0 2 (by decide)
      (by decide)⟩

/-- C6: with an empty online set, `GetOnlineValidators` returns the
degenerate committee whose original and effective sets are both the god
singleton and whose size is one, for every seed, round, step and limit. -/
theorem god_committee_when_offline (ext : CryptoPrimitives)
    (v : ValidatorsCache) (seed : List Nat) (round step : Nat) (limit : Int)
    (hon : OnlineSize v = 0) :
    GetOnlineValidators ext v seed round step limit
      = some ⟨{v.god}, {v.god}, 1⟩ := by
  simp [GetOnlineValidators, hon]

/-- C6 witness: the freshly constructed cache with god `…09`. -/
theorem god_committee_when_offline_w :
    OnlineSize emptyCache = 0 ∧
    GetOnlineValidators otherCrypto emptyCache [2] 7 3 100
      = some ⟨{setBytes [9]}, {setBytes [9]}, 1⟩ :=
  ⟨by decide,
    god_committee_when_offline otherCrypto emptyCache [2] 7 3 100 (by decide)⟩

/-- C9 counterexample: a block at height 5 with the `IdentityUpdate` flag
triggers a full rebuild from a snapshot at version 7, yet afterwards the
cache reports height 5 — `RefreshIfUpdated` overwrites the height written
by the rebuild with the block height. -/
theorem height_after_refresh_cex :
    (Block.mk 5 true).identityUpdate = true ∧
    Height (RefreshIfUpdated (NewValidatorsCache []) [] 7 [] (Block.mk 5 true))
      = 5 ∧
    (5 : Nat) ≠ 7 := by
  decide

/-- C9 (amended): after `Load` the cache height equals the snapshot
version; after `RefreshIfUpdated` it equals the block's height, whether or
not a rebuild occurred — the version recorded by a rebuild is immediately
overwritten. -/
theorem height_after_update (v : ValidatorsCache)
    (records : List IdentityRecord) (version : Nat) (godAddress : Address)
    (b : Block) :
    Height (Load v records version) = version ∧
    Height (RefreshIfUpdated v records version godAddress b) = b.height :=
  ⟨rfl, rfl⟩

/-- C4: with at least one online identity, when the Validator Set length
equals `limit` the committee is the full Validator Set: `original` is the
set of all its members, `effective` is its image under delegation
substitution (delegators replaced by their delegatee, duplicates merged),
the size is the cardinality of `effective`, and the result does not depend
on the hash or pseudo-random collaborators. -/
theorem full_set_committee (ext ext2 : CryptoPrimitives)
    (v : ValidatorsCache) (seed : List Nat) (round step : Nat) (limit : Int)
    (hon : OnlineSize v ≠ 0)
    (hlen : (v.sortedValidators.length : Int) = limit) :
    GetOnlineValidators ext v seed round step limit
      = some ⟨v.sortedValidators.toFinset,
          v.sortedValidators.toFinset.image
            (fun addr => (lookupA v.delegations addr).getD addr),
          (v.sortedValidators.toFinset.image
            (fun addr => (lookupA v.delegations addr).getD addr)).card⟩ ∧
    GetOnlineValidators ext v seed round step limit
      = GetOnlineValidators ext2 v seed round step limit := by
  have h : GetOnlineValidators ext v seed round step limit
      = some ⟨v.sortedValidators.toFinset,
          v.sortedValidators.toFinset.image
            (fun addr => (lookupA v.delegations addr).getD addr),
          (v.sortedValidators.toFinset.image
            (fun addr => (lookupA v.delegations addr).getD addr)).card⟩ := by
    simp [GetOnlineValidators, hon, hlen, replaceByDelegatee, foldl_insert_eq]
  have h2 : GetOnlineValidators ext2 v seed round step limit
      = some ⟨v.sortedValidators.toFinset,
          v.sortedValidators.toFinset.image
            (fun addr => (lookupA v.delegations addr).getD addr),
          (v.sortedValidators.toFinset.image
            (fun addr => (lookupA v.delegations addr).getD addr)).card⟩ := by
    simp [GetOnlineValidators, hon, hlen, replaceByDelegatee, foldl_insert_eq]
  exact ⟨h, h.trans h2.symm⟩

/-- C4 witness: two approved online identities and limit two — the full
set is returned, under two different collaborator instantiations. -/
theorem full_set_committee_w :
    OnlineSize exampleCache ≠ 0 ∧
    ((exampleCache.sortedValidators.length : Int) = 2) ∧
    GetOnlineValidators trivialCrypto exampleCache [] 0 0 2
      = some ⟨exampleCache.sortedValidators.toFinset,
          exampleCache.sortedValidators.toFinset.image
            (fun addr => (lookupA exampleCache.delegations addr).getD addr),
          (exampleCache.sortedValidators.toFinset.image
            (fun addr => (lookupA exampleCache.delegations addr).getD addr)).card⟩ :=
  ⟨by decide, by decide,
    (full_set_committee trivialCrypto otherCrypto exampleCache [] 0 0 2
      (by decide) (by decide)).1⟩

/-- C7: `ForkCommitteeSize` equals the approved-set cardinality, minus the
number of delegation-map entries, plus the number of pool-delegatee
addresses outside the approved set (the pool keys being distinct, as Go
map keys are). -/
theorem fork_committee_size_eq (v : ValidatorsCache)
    (hkeys : (v.pools.map Prod.fst).Nodup) :
    ForkCommitteeSize v
      = (NetworkSize v : Int) - v.delegations.length
        + (((v.pools.map Prod.fst).toFinset.filter
            fun p => p ∉ v.nodesSet).card : Int) := by
  unfold ForkCommitteeSize
  rw [foldl_add_count]
  congr 2
  have hnd : ((v.pools.map Prod.fst).filter
      fun p => decide (p ∉ v.nodesSet)).Nodup := hkeys.filter _
  rw [← List.toFinset_card_of_nodup hnd, List.toFinset_filter]
  congr 1
  simp

/-- C7 witness: one approved node, one delegation edge, one pool whose
owner is not approved. -/
theorem fork_committee_size_eq_w :
    (dupCache.pools.map Prod.fst).Nodup ∧
    ForkCommitteeSize dupCache
      = (NetworkSize dupCache : Int) - dupCache.delegations.length
        + (((dupCache.pools.map Prod.fst).toFinset.filter
            fun p => p ∉ dupCache.nodesSet).card : Int) :=
  ⟨by decide, fork_committee_size_eq dupCache (by decide)⟩

/-- C8: for an address with a pool, `PoolSizeExceptNodes` is `PoolSize`
minus one for each entry of the excluded list whose binary-search `index`
in the pool's sorted delegator list is strictly positive (entries at
position zero or absent, i.e. with `index ≤ 0`, subtract nothing); for an
address without a pool the result is zero. -/
theorem pool_size_except_nodes_eq (v : ValidatorsCache) (pool : Address)
    (exceptNodes : List Address) :
    (∀ ds, lookupA v.pools pool = some ds →
      PoolSizeExceptNodes v pool exceptNodes
        = PoolSize v pool
          - ((exceptNodes.filter
              fun e => decide (indexOfSorted ds e > 0)).length : Int)) ∧
    (lookupA v.pools pool = none →
      PoolSizeExceptNodes v pool exceptNodes = 0) := by
  constructor
  · intro ds hds
    unfold PoolSizeExceptNodes PoolSize
    rw [hds]
    simp only
    rw [foldl_sub_count]
  · intro h
    unfold PoolSizeExceptNodes
    rw [h]

/-- C8 witness: the pool of `…07` has the single delegator `…03`, which
sits at position zero of the sorted list and therefore subtracts nothing;
`…01` has no pool. -/
theorem pool_size_except_nodes_eq_w :
    lookupA dupCache.pools (setBytes [7]) = some [setBytes [3]] ∧
    PoolSizeExceptNodes dupCache (setBytes [7]) [setBytes [3]]
      = PoolSize dupCache (setBytes [7])
        - ((([setBytes [3]] : List Address).filter
            fun e => decide (indexOfSorted [setBytes [3]] e > 0)).length : Int) ∧
    lookupA dupCache.pools (setBytes [1]) = none ∧
    PoolSizeExceptNodes dupCache (setBytes [1]) [setBytes [3]] = 0 :=
  ⟨by decide,
    (pool_size_except_nodes_eq dupCache (setBytes [7]) [setBytes [3]]).1
      [setBytes [3]] (by decide),
    by decide,
    (pool_size_except_nodes_eq dupCache (setBytes [1]) [setBytes [3]]).2
      (by decide)⟩

/-- C1 counterexample: address `…03` is online and approved and also a
delegator in the pool of the online delegatee `…07`, so step 4 appends it
twice and the reloaded Validator Set `[…03, …03]` has a duplicate (and is
therefore not strictly descending either). -/
theorem validator_set_duplicates_cex :
    dupCache.sortedValidators = [setBytes [3], setBytes [3]] ∧
    ¬ dupCache.sortedValidators.Nodup := by
  decide

/-- C1 (amended): for every reload input the Validator Set is sorted
descending by address bytes, weakly — equal addresses may be adjacent,
because an online approved address that is also a delegator in the pool of
an online delegatee is appended by both rules of step 4 and appears twice;
whenever the step-4 sequence has no repeats, the Validator Set is
duplicate-free and sorted strictly descending. -/
theorem validator_set_sorted (v : ValidatorsCache)
    (records : List IdentityRecord) (version : Nat) :
    (loadValidNodes v records version).sortedValidators.Pairwise addrGe ∧
    ((buildValidators (iterate scanStep records ScanState.empty)).Nodup →
      (loadValidNodes v records version).sortedValidators.Nodup ∧
      (loadValidNodes v records version).sortedValidators.Pairwise
        fun a b => bytesCompare a b = .gt) := by
  have hperm :
      List.Perm
        (sortValidNodes
          (buildValidators (iterate scanStep records ScanState.empty)))
        (buildValidators (iterate scanStep records ScanState.empty)) :=
    List.perm_insertionSort addrGe _
  have hsorted :
      (sortValidNodes
        (buildValidators (iterate scanStep records ScanState.empty))).Pairwise
        addrGe :=
    List.sorted_insertionSort addrGe _
  refine ⟨hsorted, fun hnd => ?_⟩
  have hnd2 :
      (sortValidNodes
        (buildValidators (iterate scanStep records ScanState.empty))).Nodup :=
    hperm.nodup_iff.mpr hnd
  refine ⟨hnd2, ?_⟩
  have hboth := hsorted.and hnd2
  refine hboth.imp ?_
  intro a b hab
  rcases hc : bytesCompare a b with _ | _ | _
  · exact absurd hc hab.1
  · exact absurd ((bytesCompare_eq_iff a b).mp hc) hab.2
  · rfl

/-- C1 witness: from the two-identity snapshot with no delegation the
step-4 sequence has no repeats and the Validator Set is strictly
descending and duplicate-free. -/
theorem validator_set_sorted_w :
    (buildValidators (iterate scanStep exampleRecords ScanState.empty)).Nodup ∧
    exampleCache.sortedValidators.Nodup ∧
    exampleCache.sortedValidators.Pairwise
      (fun a b => bytesCompare a b = .gt) :=
  ⟨by decide,
    ((validator_set_sorted (NewValidatorsCache []) exampleRecords 0).2
      (by decide)).1,
    ((validator_set_sorted (NewValidatorsCache []) exampleRecords 0).2
      (by decide)).2⟩

/-! ### Pool non-emptiness invariant and claim C10 -/

theorem addSorted_ne_nil (l : List Address) (addr : Address) :
    addSorted l addr ≠ [] := by
  simp [addSorted]

theorem mem_storeA {β : Type} {m : List (Address × β)} {k : Address}
    {val : β} {kv : Address × β} (h : kv ∈ storeA m k val) :
    kv ∈ m ∨ kv = (k, val) := by
  induction m with
  | nil =>
    simp only [storeA, List.mem_singleton] at h
    exact Or.inr h
  | cons hd tl ih =>
    obtain ⟨k2, v2⟩ := hd
    by_cases he : k2 = k
    · simp only [storeA, if_pos he, List.mem_cons] at h
      rcases h with h | h
      · exact Or.inr (by rw [h, he])
      · exact Or.inl (List.mem_cons_of_mem _ h)
    · simp only [storeA, if_neg he, List.mem_cons] at h
      rcases h with h | h
      · exact Or.inl (by rw [h]; exact List.mem_cons_self _ _)
      · rcases ih h with h2 | h2
        · exact Or.inl (List.mem_cons_of_mem _ h2)
        · exact Or.inr h2

theorem lookupA_mem {β : Type} {m : List (Address × β)} {k : Address}
    {val : β} (h : lookupA m k = some val) : (k, val) ∈ m := by
  induction m with
  | nil => simp [lookupA] at h
  | cons hd tl ih =>
    obtain ⟨k2, v2⟩ := hd
    by_cases he : k2 = k
    · simp only [lookupA, if_pos he, Option.some.injEq] at h
      rw [← he, ← h]
      exact List.mem_cons_self _ _
    · simp only [lookupA, if_neg he] at h
      exact List.mem_cons_of_mem _ (ih h)

theorem scanStep_pools_nonempty (s : ScanState) (r : IdentityRecord)
    (hs : ∀ kv ∈ s.pools, kv.2 ≠ []) :
    ∀ kv ∈ (scanStep s r).1.pools, kv.2 ≠ [] := by
  obtain ⟨key, val⟩ := r
  cases key with
  | none => exact hs
  | some key =>
    cases val with
    | none => exact hs
    | some data =>
      obtain ⟨ap, onl, del⟩ := data
      intro kv hkv
      cases onl <;> cases ap <;> cases del <;>
        dsimp only [scanStep] at hkv <;>
        first
          | exact hs kv hkv
          | (rcases mem_storeA hkv with h | h
             · exact hs kv h
             · rw [h]
               exact addSorted_ne_nil _ _)

theorem scan_pools_nonempty (records : List IdentityRecord) (s : ScanState)
    (hs : ∀ kv ∈ s.pools, kv.2 ≠ []) :
    ∀ kv ∈ (iterate scanStep records s).pools, kv.2 ≠ [] := by
  induction records generalizing s with
  | nil => exact hs
  | cons r rest ih =>
    have hstep := scanStep_pools_nonempty s r hs
    by_cases hstop : (scanStep s r).2 = true
    · dsimp only [iterate]
      rw [if_pos hstop]
      exact hstep
    · dsimp only [iterate]
      rw [if_neg hstop]
      exact ih _ hstep

/-- C10: `FindSubIdentity` is safe exactly when a pool exists; on every
cache state produced by a reload, if `IsPool` holds it returns a candidate
for every nonce, and if not, the Go code dereferences a missing pool entry
and panics (modelled as `none`). -/
theorem find_sub_identity_safety (g : Address)
    (records : List IdentityRecord) (version : Nat) (pool : Address)
    (nonce : Nat) (s : ValidatorsCache)
    (hs : s = loadValidNodes (NewValidatorsCache g) records version) :
    (IsPool s pool → (FindSubIdentity s pool nonce).isSome = true) ∧
    (¬ IsPool s pool → FindSubIdentity s pool nonce = none) := by
  constructor
  · intro hp
    unfold IsPool at hp
    obtain ⟨ds, hds⟩ := Option.isSome_iff_exists.mp hp
    have hmem : (pool, ds) ∈ s.pools := lookupA_mem hds
    have hpools : ∀ kv ∈ s.pools, kv.2 ≠ [] := by
      subst hs
      exact scan_pools_nonempty records ScanState.empty (by simp [ScanState.empty])
    have hne : ds ≠ [] := hpools (pool, ds) hmem
    have hcne : (if pool ∈ s.nodesSet then pool :: ds else ds) ≠ [] := by
      by_cases h : pool ∈ s.nodesSet <;> simp [h, hne]
    set cand := if pool ∈ s.nodesSet then pool :: ds else ds with hcand
    have hlt : (if nonce ≥ cand.length % 2 ^ 32 then 0 else nonce)
        < cand.length := by
      by_cases h : nonce ≥ cand.length % 2 ^ 32
      · rw [if_pos h]
        exact List.length_pos.mpr hcne
      · rw [if_neg h]
        push_neg at h
        exact lt_of_lt_of_le h (Nat.mod_le _ _)
    obtain ⟨a, ha⟩ : ∃ a,
        cand.get? (if nonce ≥ cand.length % 2 ^ 32 then 0 else nonce)
          = some a :=
      ⟨_, List.get?_eq_get hlt⟩
    unfold FindSubIdentity
    rw [hds]
    simp only [← hcand, ha]
    rfl
  · intro hp
    have hnone : lookupA s.pools pool = none := by
      cases h : lookupA s.pools pool with
      | none => rfl
      | some ds => exact absurd (by simp [IsPool, h]) hp
    unfold FindSubIdentity
    rw [hnone]

/-- C10 witness: in the cache reloaded from `dupRecords`, `…07` owns a
pool and `FindSubIdentity` succeeds on it, while `…01` owns none and the
call fails. -/
theorem find_sub_identity_safety_w :
    IsPool dupCache (setBytes [7]) ∧
    (FindSubIdentity dupCache (setBytes [7]) 0).isSome = true ∧
    ¬ IsPool dupCache (setBytes [1]) ∧
    FindSubIdentity dupCache (setBytes [1]) 0 = none :=
  ⟨by decide,
    (find_sub_identity_safety [] dupRecords 0 (setBytes [7]) 0 dupCache
      rfl).1 (by decide),
    by decide,
    (find_sub_identity_safety [] dupRecords 0 (setBytes [1]) 0 dupCache
      rfl).2 (by decide)⟩

end IdenaValidators
